import Mathlib

/-!
Verification of the `suspense-async-store` cache engine against its
natural-language specification.

The development shallowly embeds `src/asyncStore.ts`:

* `keyToString` / JSON serialization model the key normalizer
  (`keyToString`, which passes strings through and applies
  `JSON.stringify` to array keys);
* `isAbortError` models the cancellation-failure recognizer;
* `St` together with `get`, `invalidate`, `clear`, `settleOk` and
  `settleErr` models the store state machine: the entry table keyed by
  canonical token, controller abortion, fetcher invocation, and the
  rejection handler attached to every created computation
  (`.catch((err) => { if (isAbortError(err)) cache.delete(k); throw err; })`).

Promises and abort controllers are identified by numeric ids; the
environment drives settlement of in-flight computations through explicit
`settleOk` / `settleErr` steps, matching the single-threaded cooperative
scheduling model (store operations are synchronous, computations settle
between them).

A second model (`SSt`, `sget`) covers the strategy-bearing store variant
(TTL pre-check and per-hit access bookkeeping) that the repository's test
suite and React-hook declarations exercise; its definitions are modelled
from the spec, as marked in their doc comments.
-/

namespace AsyncStore

/-- Scalar JSON-representable values that may appear in an array key
(`Key = string | readonly unknown[]` in the source, with array keys passed
to `JSON.stringify`). Numbers are modelled as integers. -/
inductive JValue : Type where
  | str (s : String)
  | num (n : Int)
  | bool (b : Bool)
  | null
  | arr (xs : List JValue)

/-- A cache key: a plain string, or a finite sequence of values. Mirrors
`type Key = string | readonly unknown[]`. -/
inductive Key : Type where
  | str (s : String)
  | seq (xs : List JValue)

/-- Hex digit used by the `\u00XX` escapes that `JSON.stringify` emits for
control characters. -/
def hexDigit (n : Nat) : Char :=
  if n < 10 then Char.ofNat (48 + n) else Char.ofNat (87 + n)

/-- Escape of a single character inside a JSON string literal, as performed
by `JSON.stringify`: quote and backslash are backslash-escaped, the usual
control-character short escapes apply, remaining control characters become
`\u00XX`, and every other character is emitted verbatim. -/
def escapeChar (c : Char) : List Char :=
  if c = '"' then ['\\', '"']
  else if c = '\\' then ['\\', '\\']
  else if c = Char.ofNat 8 then ['\\', 'b']
  else if c = Char.ofNat 9 then ['\\', 't']
  else if c = Char.ofNat 10 then ['\\', 'n']
  else if c = Char.ofNat 12 then ['\\', 'f']
  else if c = Char.ofNat 13 then ['\\', 'r']
  else if c.toNat < 32 then
    ['\\', 'u', '0', '0', hexDigit (c.toNat / 16), hexDigit (c.toNat % 16)]
  else [c]

/-- Escape every character of a JSON string body. -/
def escapeList : List Char → List Char
  | [] => []
  | c :: cs => escapeChar c ++ escapeList cs

/-- Model of `JSON.stringify` on a string value: a double-quoted, escaped literal. -/
def quoteJson (s : String) : String :=
  ⟨'"' :: (escapeList s.data ++ ['"'])⟩

mutual

/-- Model of `JSON.stringify` on the modelled value universe. Arrays are serialized
as comma-separated items between square brackets, with no whitespace. -/
def jsonStringify : JValue → String
  | .str s => quoteJson s
  | .num n => toString n
  | .bool true => "true"
  | .bool false => "false"
  | .null => "null"
  | .arr xs => "[" ++ jsonStringifyItems xs ++ "]"

/-- Comma-separated serialization of array items. -/
def jsonStringifyItems : List JValue → String
  | [] => ""
  | [v] => jsonStringify v
  | v :: w :: rest => jsonStringify v ++ "," ++ jsonStringifyItems (w :: rest)

end

/-- Function `keyToString` from the source: strings pass through unchanged, array
keys are `JSON.stringify`-ed
(`typeof key === "string" ? key : JSON.stringify(key)`). -/
def keyToString : Key → String
  | .str s => s
  | .seq xs => jsonStringify (.arr xs)

/-- A JavaScript error value, restricted to the shape `isAbortError`
inspects: whether it is a `DOMException`, its `name`, and its optional
`code` property. -/
structure JsError : Type where
  isDOMException : Bool
  name : String
  code : Option String
deriving DecidableEq, Repr

/-- Function `isAbortError` from the source: a `DOMException` named `"AbortError"`,
or an error object whose `code` property is `"ERR_CANCELED"`. -/
def isAbortError (err : JsError) : Bool :=
  if err.isDOMException && err.name == "AbortError" then true
  else if err.code == some "ERR_CANCELED" then true
  else false

/-! ### Association lists modelling the `Map<string, Entry>` table -/

/-- Model of `Map.get`: first binding of the key, if any. -/
def lookupA {κ α : Type} [DecidableEq κ] (c : List (κ × α)) (k : κ) : Option α :=
  match c with
  | [] => none
  | (k', v) :: rest => if k' = k then some v else lookupA rest k

/-- Model of `Map.delete`: remove every binding of the key. -/
def eraseA {κ α : Type} [DecidableEq κ] (c : List (κ × α)) (k : κ) : List (κ × α) :=
  match c with
  | [] => []
  | (k', v) :: rest => if k' = k then eraseA rest k else (k', v) :: eraseA rest k

/-- Model of `Map.set`: bind the key, shadowing any previous binding. -/
def setA {κ α : Type} [DecidableEq κ] (c : List (κ × α)) (k : κ) (v : α) : List (κ × α) :=
  (k, v) :: eraseA c k

theorem lookupA_eraseA_self {κ α : Type} [DecidableEq κ] (c : List (κ × α)) (k : κ) :
    lookupA (eraseA c k) k = none := by
  induction c with
  | nil => rfl
  | cons p rest ih =>
    obtain ⟨k', v⟩ := p
    by_cases h : k' = k
    · simp [eraseA, h, ih]
    · simp [eraseA, lookupA, h, ih]

theorem lookupA_eraseA_ne {κ α : Type} [DecidableEq κ] (c : List (κ × α)) (k k' : κ)
    (h : k ≠ k') : lookupA (eraseA c k) k' = lookupA c k' := by
  induction c with
  | nil => rfl
  | cons p rest ih =>
    obtain ⟨k₀, v⟩ := p
    by_cases h₀ : k₀ = k
    · subst h₀
      simp [eraseA, lookupA, h, ih]
    · by_cases h₁ : k₀ = k'
      · simp [eraseA, lookupA, h₀, h₁, Ne.symm h, ih]
      · simp [eraseA, lookupA, h₀, h₁, ih]

theorem lookupA_setA_self {κ α : Type} [DecidableEq κ] (c : List (κ × α)) (k : κ) (v : α) :
    lookupA (setA c k v) k = some v := by
  simp [setA, lookupA]

theorem lookupA_setA_ne {κ α : Type} [DecidableEq κ] (c : List (κ × α)) (k k' : κ) (v : α)
    (h : k ≠ k') : lookupA (setA c k v) k' = lookupA c k' := by
  simp [setA, lookupA, h, lookupA_eraseA_ne c k k' h]

theorem mem_eraseA {κ α : Type} [DecidableEq κ] {c : List (κ × α)} {k : κ}
    {p : κ × α} (h : p ∈ eraseA c k) : p ∈ c := by
  induction c with
  | nil => simp [eraseA] at h
  | cons q rest ih =>
    obtain ⟨k₀, v⟩ := q
    by_cases h₀ : k₀ = k
    · simp only [eraseA, if_pos h₀] at h
      exact List.mem_cons_of_mem _ (ih h)
    · simp only [eraseA, if_neg h₀, List.mem_cons] at h
      rcases h with h | h
      · exact h ▸ List.mem_cons_self _ _
      · exact List.mem_cons_of_mem _ (ih h)

/-! ### The store state machine (`createAsyncStore` in the source)

Promises and abort controllers are identified by `Nat` ids allocated from
`St.nextId`; for the computation created by one cache miss, the promise id,
the controller id and the computation record share one fresh id.  The
`invocations` field logs, in order, the fetcher of every invocation of a
computation function, and `aborted` collects the ids of every controller
whose `abort()` was called. -/

/-- A cache entry, mirroring `interface Entry<T> { promise; controller }`. -/
structure Entry : Type where
  promise : Nat
  controller : Nat
deriving DecidableEq, Repr

/-- Settlement state of a created computation's promise. -/
inductive Status : Type where
  | pending
  | resolved
  | rejected (err : JsError)
deriving DecidableEq, Repr

/-- Bookkeeping for a computation created by a cache miss: the canonical
token `k` captured by its rejection handler
(`.catch((err) => { if (isAbortError(err)) cache.delete(k); throw err; })`),
the fetcher that produced it, and its settlement status. -/
structure Comp : Type where
  key : String
  fetcher : Nat
  status : Status
deriving DecidableEq, Repr

/-- Store state: the entry table (`cache : Map<string, Entry>`), the record
of every created computation, the fresh-id supply, the set of aborted
controllers, and the log of fetcher invocations. -/
structure St : Type where
  cache : List (String × Entry)
  comps : List (Nat × Comp)
  nextId : Nat
  aborted : List Nat
  invocations : List Nat
deriving DecidableEq, Repr

/-- The state of a freshly created store: empty table, nothing invoked. -/
def init : St := ⟨[], [], 0, [], []⟩

/-- Immediate behaviour of a fetcher when invoked: it either returns a
promise (the conforming case) or throws synchronously. -/
inductive FetchBehavior : Type where
  | ret
  | thr (err : JsError)
deriving DecidableEq, Repr

/-- Function `get` from the source.  On a hit the cached entry's promise is returned
and the state is untouched.  On a miss a fresh `AbortController` is
allocated and the fetcher invoked; if the invocation throws synchronously
the exception propagates out of `get` (there is no surrounding
`try`/`catch` in the source) and nothing is cached; otherwise the rejection
handler capturing the token is attached, the entry `{ promise, controller }`
is stored, and the promise returned. -/
def get (k : Key) (f : Nat) (beh : FetchBehavior) (st : St) :
    St × Except JsError Nat :=
  let ks := keyToString k
  match lookupA st.cache ks with
  | some e => (st, .ok e.promise)
  | none =>
    let cid := st.nextId
    match beh with
    | .thr err =>
      ({ st with nextId := cid + 1, invocations := st.invocations ++ [f] },
       .error err)
    | .ret =>
      ({ st with
          nextId := cid + 1,
          invocations := st.invocations ++ [f],
          comps := setA st.comps cid ⟨ks, f, .pending⟩,
          cache := setA st.cache ks ⟨cid, cid⟩ },
       .ok cid)

/-- Function `invalidate` from the source: when an entry exists for the token, abort
its controller and delete it from the table; otherwise do nothing. -/
def invalidate (k : Key) (st : St) : St :=
  let ks := keyToString k
  match lookupA st.cache ks with
  | some e =>
    { st with
        aborted := e.controller :: st.aborted,
        cache := eraseA st.cache ks }
  | none => st

/-- Function `clear` from the source: abort every entry's controller, then empty the
table. -/
def clear (st : St) : St :=
  { st with
      aborted := st.cache.map (fun p => p.2.controller) ++ st.aborted,
      cache := [] }

/-- Environment step: the computation `cid` resolves.  The attached
rejection handler does not fire. -/
def settleOk (cid : Nat) (st : St) : St :=
  match lookupA st.comps cid with
  | some c => { st with comps := setA st.comps cid { c with status := .resolved } }
  | none => st

/-- Environment step: the computation `cid` rejects with `err`, running the
rejection handler attached in `get`: when `isAbortError err` holds, the
handler deletes the token that was captured at creation time from the table
(whatever entry currently occupies it), and the error is rethrown, leaving
the promise rejected. -/
def settleErr (cid : Nat) (err : JsError) (st : St) : St :=
  match lookupA st.comps cid with
  | some c =>
    let st' :=
      if isAbortError err then { st with cache := eraseA st.cache c.key }
      else st
    { st' with comps := setA st'.comps cid { c with status := .rejected err } }
  | none => st

/-- Repeated `get` calls on one key, with the listed fetchers and
behaviours, discarding the returned promises. -/
def getsOn (k : Key) (fs : List (Nat × FetchBehavior)) (st : St) : St :=
  fs.foldl (fun s fb => (get k fb.1 fb.2 s).1) st

theorem get_hit {st : St} {k : Key} {e : Entry}
    (h : lookupA st.cache (keyToString k) = some e) (f : Nat)
    (beh : FetchBehavior) : get k f beh st = (st, .ok e.promise) := by
  simp [get, h]

theorem getsOn_fixed {st : St} {k : Key} {e : Entry}
    (h : lookupA st.cache (keyToString k) = some e)
    (fs : List (Nat × FetchBehavior)) : getsOn k fs st = st := by
  induction fs with
  | nil => rfl
  | cons fb rest ih =>
    have hstep : (get k fb.1 fb.2 st).1 = st := by
      rw [get_hit h]
    calc getsOn k (fb :: rest) st
        = getsOn k rest (get k fb.1 fb.2 st).1 := rfl
      _ = getsOn k rest st := by rw [hstep]
      _ = st := ih

theorem get_miss {st : St} {k : Key}
    (h : lookupA st.cache (keyToString k) = none) (f : Nat) :
    (get k f .ret st).2 = .ok st.nextId ∧
    (get k f .ret st).1.invocations = st.invocations ++ [f] := by
  simp [get, h]

/-- A native-fetch style cancellation failure:
`new DOMException("Aborted", "AbortError")`. -/
def abortErr : JsError := ⟨true, "AbortError", none⟩

/-- An axios style cancellation failure: `{ code: "ERR_CANCELED" }`. -/
def canceledErr : JsError := ⟨false, "CanceledError", some "ERR_CANCELED"⟩

/-- An organic failure: `new Error("Network error")`. -/
def netErr : JsError := ⟨false, "Error", none⟩

/-- Claim C1 (single-flight): starting from a state with no entry for key
`k`, a `get k f` invokes `f` once and returns the fresh promise; every
further `get` on `k` — any number of them, with any fetchers, before any
settlement, invalidation or clearing — returns the identical cached promise,
leaves the state untouched, and invokes no fetcher. -/
theorem single_flight (st : St) (k : Key) (f : Nat)
    (h : lookupA st.cache (keyToString k) = none) :
    (get k f .ret st).2 = .ok st.nextId ∧
    (get k f .ret st).1.invocations = st.invocations ++ [f] ∧
    (∀ f' beh, get k f' beh (get k f .ret st).1 =
       ((get k f .ret st).1, .ok st.nextId)) ∧
    (∀ fs, getsOn k fs (get k f .ret st).1 = (get k f .ret st).1) := by
  have hres : get k f .ret st =
      ({ st with nextId := st.nextId + 1,
                 invocations := st.invocations ++ [f],
                 comps := setA st.comps st.nextId ⟨keyToString k, f, .pending⟩,
                 cache := setA st.cache (keyToString k) ⟨st.nextId, st.nextId⟩ },
       .ok st.nextId) := by
    simp [get, h]
  have hlook : lookupA (get k f .ret st).1.cache (keyToString k) =
      some ⟨st.nextId, st.nextId⟩ := by
    rw [hres]
    exact lookupA_setA_self _ _ _
  refine ⟨by rw [hres], by rw [hres], fun f' beh => get_hit hlook f' beh,
    fun fs => getsOn_fixed hlook fs⟩

/-- Witness for C1 at a concrete input: in the empty store, `get "k"` with
fetcher `7` returns promise `0`, and a second `get "k"` with fetcher `8`
returns the same promise `0`. -/
theorem single_flight_witness :
    lookupA AsyncStore.init.cache (keyToString (Key.str "k")) = none ∧
    (get (Key.str "k") 7 .ret init).2 = .ok 0 ∧
    (get (Key.str "k") 8 .ret (get (Key.str "k") 7 .ret init).1).2 = .ok 0 := by
  have h := single_flight init (Key.str "k") 7 rfl
  refine ⟨rfl, h.1, ?_⟩
  rw [h.2.2.1 8 .ret]
  rfl

/-- Claim C2 (cancellation vs organic failure): for an entry whose
computation's captured token matches its table key, a rejection recognized
as a cancellation removes the entry, so the next `get` invokes its fetcher
afresh; a rejection with any other error leaves the failed entry cached,
and every subsequent `get` for the key returns the same rejected promise
without invoking any fetcher. -/
theorem cancellation_vs_organic (st : St) (k : Key) (e : Entry) (c : Comp)
    (errC errO : JsError)
    (he : lookupA st.cache (keyToString k) = some e)
    (hc : lookupA st.comps e.promise = some c)
    (hk : c.key = keyToString k)
    (hC : isAbortError errC = true)
    (hO : isAbortError errO = false) :
    (lookupA (settleErr e.promise errC st).cache (keyToString k) = none ∧
     (∀ f', (get k f' .ret (settleErr e.promise errC st)).2 =
              .ok st.nextId ∧
            (get k f' .ret (settleErr e.promise errC st)).1.invocations =
              st.invocations ++ [f'])) ∧
    ((settleErr e.promise errO st).cache = st.cache ∧
     lookupA (settleErr e.promise errO st).comps e.promise =
       some { c with status := .rejected errO } ∧
     (∀ f' beh, get k f' beh (settleErr e.promise errO st) =
        (settleErr e.promise errO st, .ok e.promise)) ∧
     (∀ fs, getsOn k fs (settleErr e.promise errO st) =
        settleErr e.promise errO st)) := by
  have hsC : settleErr e.promise errC st =
      { st with cache := eraseA st.cache c.key,
                comps := setA st.comps e.promise { c with status := .rejected errC } } := by
    simp [settleErr, hc, hC]
  have hsO : settleErr e.promise errO st =
      { st with comps := setA st.comps e.promise { c with status := .rejected errO } } := by
    simp [settleErr, hc, hO]
  have hlookC : lookupA (settleErr e.promise errC st).cache (keyToString k) = none := by
    rw [hsC]
    simpa [hk] using lookupA_eraseA_self st.cache (keyToString k)
  have hlookO : lookupA (settleErr e.promise errO st).cache (keyToString k) = some e := by
    rw [hsO]
    exact he
  refine ⟨⟨hlookC, fun f' => ?_⟩,
    by rw [hsO], by rw [hsO]; exact lookupA_setA_self _ _ _,
    fun f' beh => get_hit hlookO f' beh, fun fs => getsOn_fixed hlookO fs⟩
  constructor
  · have hm := (get_miss hlookC f').1
    rw [hm, hsC]
  · have hm := (get_miss hlookC f').2
    rw [hm, hsC]

/-- Witness for C2 at concrete inputs: create an entry for `"a"`; a
rejection with a `DOMException` named `AbortError` empties the table, while
a rejection with a plain network error keeps the entry and a further `get`
returns the original promise `0` without invoking fetcher `6`. -/
theorem cancellation_vs_organic_witness :
    (lookupA (settleErr 0 abortErr (get (Key.str "a") 5 .ret init).1).cache "a" =
       none) ∧
    (get (Key.str "a") 6 .ret
       (settleErr 0 netErr (get (Key.str "a") 5 .ret init).1)).2 = .ok 0 := by
  have h := cancellation_vs_organic (get (Key.str "a") 5 .ret init).1
    (Key.str "a") ⟨0, 0⟩ ⟨"a", 5, .pending⟩ abortErr netErr
    (by decide) (by decide) (by decide) (by decide) (by decide)
  refine ⟨h.1.1, ?_⟩
  rw [h.2.2.2.1 6 .ret]

/-- First step of the C3 interleaving: `get("k", f₁)` creates the first
entry (promise and controller `0`). -/
def c3AfterGet1 : St := (get (Key.str "k") 1 .ret init).1

/-- Second step: `invalidate("k")` aborts controller `0` and removes the
first entry. -/
def c3AfterInvalidate : St := invalidate (Key.str "k") c3AfterGet1

/-- Third step: `get("k", f₂)` creates a fresh entry (promise and
controller `1`). -/
def c3AfterGet2 : St := (get (Key.str "k") 2 .ret c3AfterInvalidate).1

/-- Fourth step: the first, aborted computation finally rejects with its
cancellation failure, running the stale rejection handler. -/
def c3Final : St := settleErr 0 abortErr c3AfterGet2

/-- Claim C3 (abort-iff-removal invariant) fails on the code: in the
interleaving `get(k,f₁); invalidate(k); get(k,f₂); ` followed by the first
computation rejecting with its cancellation failure, the stale rejection
handler `cache.delete(k)` removes the fresh entry (controller `1`) from the
table even though that entry's own controller was never aborted and its own
computation is still pending — an entry reachable through the table is
removed without its cancellation handle having been aborted. -/
theorem abort_iff_removal_violated :
    lookupA c3AfterGet2.cache "k" = some ⟨1, 1⟩ ∧
    lookupA c3Final.cache "k" = none ∧
    c3Final.aborted = [0] ∧
    (1 : Nat) ∉ c3Final.aborted ∧
    lookupA c3Final.comps 1 = some ⟨"k", 2, .pending⟩ := by
  refine ⟨rfl, rfl, rfl, by decide, rfl⟩

/-- Claim C4 (invalidate-then-refetch): `invalidate k` is a no-op when `k`
is absent; when an entry exists it aborts that entry's controller and
removes it synchronously; and in either case a `get k f₂` issued
immediately afterwards misses, invokes `f₂`, and returns a fresh promise. -/
theorem invalidate_then_refetch (st : St) (k : Key) :
    (lookupA st.cache (keyToString k) = none → invalidate k st = st) ∧
    (∀ e, lookupA st.cache (keyToString k) = some e →
       (invalidate k st).aborted = e.controller :: st.aborted ∧
       lookupA (invalidate k st).cache (keyToString k) = none) ∧
    (∀ f₂, (get k f₂ .ret (invalidate k st)).2 = .ok (invalidate k st).nextId ∧
           (get k f₂ .ret (invalidate k st)).1.invocations =
             st.invocations ++ [f₂]) := by
  have hmiss : lookupA (invalidate k st).cache (keyToString k) = none := by
    unfold invalidate
    cases hl : lookupA st.cache (keyToString k) with
    | none => simp [hl]
    | some e => simp [hl, lookupA_eraseA_self]
  refine ⟨fun h => by simp [invalidate, h], fun e he => ?_, fun f₂ => ?_⟩
  · constructor
    · simp [invalidate, he]
    · exact hmiss
  · have hinv : (invalidate k st).invocations = st.invocations := by
      unfold invalidate
      cases hl : lookupA st.cache (keyToString k) <;> simp [hl]
    constructor
    · simp [get, hmiss]
    · simp [get, hmiss, hinv]

/-- Witness for C4 at concrete inputs: with an entry for `"a"` (promise and
controller `0`), `invalidate` aborts controller `0`, the lookup afterwards
misses, on the absent key `"b"` `invalidate` is the identity, and a `get`
right after the invalidation invokes fetcher `9`. -/
theorem invalidate_then_refetch_witness :
    (invalidate (Key.str "a") (get (Key.str "a") 5 .ret init).1).aborted = [0] ∧
    lookupA (invalidate (Key.str "a")
      (get (Key.str "a") 5 .ret init).1).cache "a" = none ∧
    invalidate (Key.str "b") (get (Key.str "a") 5 .ret init).1 =
      (get (Key.str "a") 5 .ret init).1 ∧
    (get (Key.str "a") 9 .ret
      (invalidate (Key.str "a") (get (Key.str "a") 5 .ret init).1)).1.invocations =
      [5, 9] := by
  have h := invalidate_then_refetch (get (Key.str "a") 5 .ret init).1 (Key.str "a")
  have hb := invalidate_then_refetch (get (Key.str "a") 5 .ret init).1 (Key.str "b")
  exact ⟨(h.2.1 ⟨0, 0⟩ (by decide)).1, (h.2.1 ⟨0, 0⟩ (by decide)).2,
    hb.1 (by decide), (h.2.2 9).2⟩

/-- Claim C5 as stated is false on the code: `get` has no `try`/`catch`
around the fetcher invocation, so a fetcher that throws synchronously makes
`get` itself raise (modelled as the `.error` outcome) and nothing is cached
— the throw is not normalized into a cached failed computation. -/
theorem sync_throw_counterexample :
    (get (Key.str "k") 5 (.thr netErr) init).2 = .error netErr ∧
    (get (Key.str "k") 5 (.thr netErr) init).1.cache = [] := by
  constructor <;> rfl

/-- Claim C5 amended: when no entry exists for the key and the fetcher
throws synchronously, `get` propagates the throw to its caller (after
having invoked the fetcher once), caches nothing for the key, and a
subsequent `get` for the key invokes its fetcher again. -/
theorem sync_throw_propagates (st : St) (k : Key) (f : Nat) (err : JsError)
    (h : lookupA st.cache (keyToString k) = none) :
    get k f (.thr err) st =
      ({ st with nextId := st.nextId + 1,
                 invocations := st.invocations ++ [f] }, .error err) ∧
    lookupA (get k f (.thr err) st).1.cache (keyToString k) = none ∧
    (∀ f', (get k f' .ret (get k f (.thr err) st).1).2 = .ok (st.nextId + 1) ∧
           (get k f' .ret (get k f (.thr err) st).1).1.invocations =
             st.invocations ++ [f, f']) := by
  have hres : get k f (.thr err) st =
      ({ st with nextId := st.nextId + 1,
                 invocations := st.invocations ++ [f] }, .error err) := by
    simp [get, h]
  have hlook : lookupA (get k f (.thr err) st).1.cache (keyToString k) = none := by
    rw [hres]
    exact h
  refine ⟨hres, hlook, fun f' => ⟨?_, ?_⟩⟩
  · have hm := (get_miss hlook f').1
    rw [hm, hres]
  · have hm := (get_miss hlook f').2
    rw [hm, hres]
    simp

/-- Witness for C5 (amended) at a concrete input: in the empty store a
synchronously-throwing fetcher makes `get "k"` return the raised error,
and a subsequent `get "k"` with fetcher `6` is invoked and returns a fresh
promise. -/
theorem sync_throw_propagates_witness :
    get (Key.str "k") 5 (.thr netErr) init =
      ({ init with nextId := 1, invocations := [5] }, .error netErr) ∧
    (get (Key.str "k") 6 .ret
      (get (Key.str "k") 5 (.thr netErr) init).1).1.invocations = [5, 6] := by
  have h := sync_throw_propagates init (Key.str "k") 5 netErr rfl
  exact ⟨h.1, (h.2.2 6).2⟩

theorem escapeChar_length (c : Char) : 1 ≤ (escapeChar c).length := by
  unfold escapeChar
  repeat' split
  all_goals simp

theorem escapeList_length (l : List Char) : l.length ≤ (escapeList l).length := by
  induction l with
  | nil => simp [escapeList]
  | cons c cs ih =>
    have h := escapeChar_length c
    simp only [escapeList, List.length_append, List.length_cons]
    omega

theorem quoteJson_length (s : String) :
    (quoteJson s).length = (escapeList s.data).length + 2 := by
  simp [quoteJson, String.length]

theorem strLength_append (a b : String) :
    (a ++ b).length = a.length + b.length := by
  cases a
  cases b
  simp [String.length, String.append]

theorem keyToString_str_ne_single (s : String) :
    keyToString (Key.str s) ≠ keyToString (Key.seq [JValue.str s]) := by
  intro h
  have h2 : keyToString (Key.seq [JValue.str s]) = "[" ++ quoteJson s ++ "]" := by
    simp [keyToString, jsonStringify, jsonStringifyItems]
  have h1 : keyToString (Key.str s) = s := rfl
  rw [h1, h2] at h
  have hlen := congrArg String.length h
  rw [strLength_append, strLength_append, quoteJson_length] at hlen
  have hesc := escapeList_length s.data
  have hsl : s.length = s.data.length := rfl
  have hbr : ("[" : String).length = 1 := rfl
  have hbr' : ("]" : String).length = 1 := rfl
  rw [hbr, hbr'] at hlen
  omega

/-- Claim C7 (key equivalence): a string key never collides with the
single-element sequence key holding that same string (`"a"` vs `["a"]`, for
every `"a"`); two structurally equal sequence keys map to one token and at
the store level the second `get` hits the first's entry without invoking
its fetcher; sequence keys differing only in element order map to distinct
tokens; and at the store level `get "a"` followed by `get ["a"]` invokes
both fetchers, creating two distinct entries. -/
theorem key_equivalence :
    (∀ s : String, keyToString (Key.str s) ≠ keyToString (Key.seq [JValue.str s])) ∧
    keyToString (Key.seq [JValue.str "x", JValue.str "1"]) =
      keyToString (Key.seq [JValue.str "x", JValue.str "1"]) ∧
    keyToString (Key.seq [JValue.str "x", JValue.str "1"]) ≠
      keyToString (Key.seq [JValue.str "1", JValue.str "x"]) ∧
    (get (Key.seq [JValue.str "a"]) 2 .ret
       (get (Key.str "a") 1 .ret init).1).1.invocations = [1, 2] ∧
    (get (Key.seq [JValue.str "x", JValue.str "1"]) 4 .ret
       (get (Key.seq [JValue.str "x", JValue.str "1"]) 3 .ret init).1).2 =
      .ok 0 ∧
    (get (Key.seq [JValue.str "x", JValue.str "1"]) 4 .ret
       (get (Key.seq [JValue.str "x", JValue.str "1"]) 3 .ret init).1).1.invocations =
      [3] := by
  refine ⟨keyToString_str_ne_single, rfl, by decide, by decide, rfl, by decide⟩

/-- Witness for C7 at a concrete input: the string key `"a"` and the
sequence key `["a"]` normalize to different tokens. -/
theorem key_equivalence_witness :
    keyToString (Key.str "a") ≠ keyToString (Key.seq [JValue.str "a"]) :=
  key_equivalence.1 "a"

/-- Claim C8 (canonicalization is deterministic, total and pure):
`keyToString` is a total function of type `Key → String` — every key, with
arbitrarily nested scalar sequences, maps to exactly one token with no
failure outcome in the type — and equal inputs yield equal tokens.  Purity
is expressed by the embedding itself: `keyToString` reads and writes no
store state. -/
theorem key_canonicalization_deterministic (k k' : Key) (h : k = k') :
    (∃! t : String, keyToString k = t) ∧ keyToString k = keyToString k' :=
  ⟨⟨keyToString k, rfl, fun _ hy => hy.symm⟩, by rw [h]⟩

/-- Witness for C8 at a concrete input: the nested sequence key
`["x", [1, null, true]]` has exactly one token. -/
theorem key_canonicalization_deterministic_witness :
    (∃! t : String,
      keyToString (Key.seq [JValue.str "x",
        JValue.arr [JValue.num 1, JValue.null, JValue.bool true]]) = t) ∧
    keyToString (Key.seq [JValue.str "x",
        JValue.arr [JValue.num 1, JValue.null, JValue.bool true]]) =
      keyToString (Key.seq [JValue.str "x",
        JValue.arr [JValue.num 1, JValue.null, JValue.bool true]]) :=
  key_canonicalization_deterministic _ _ rfl

/-- Claim C10 (string/sequence token collision): for every sequence key
`xs`, the string key whose characters are the JSON serialization of `xs`
normalizes to the very same token, so after `get` with the string key, a
`get` with the sequence key hits the same entry: it returns the first
call's promise and invokes no second fetcher. -/
theorem token_collision (st : St) (xs : List JValue) (f g : Nat)
    (h : lookupA st.cache (jsonStringify (JValue.arr xs)) = none) :
    keyToString (Key.str (jsonStringify (JValue.arr xs))) =
      keyToString (Key.seq xs) ∧
    (get (Key.str (jsonStringify (JValue.arr xs))) f .ret st).1.invocations =
      st.invocations ++ [f] ∧
    get (Key.seq xs) g .ret
        (get (Key.str (jsonStringify (JValue.arr xs))) f .ret st).1 =
      ((get (Key.str (jsonStringify (JValue.arr xs))) f .ret st).1,
       .ok st.nextId) := by
  have htok : keyToString (Key.str (jsonStringify (JValue.arr xs))) =
      keyToString (Key.seq xs) := rfl
  have hres : get (Key.str (jsonStringify (JValue.arr xs))) f .ret st =
      ({ st with nextId := st.nextId + 1,
                 invocations := st.invocations ++ [f],
                 comps := setA st.comps st.nextId
                   ⟨jsonStringify (JValue.arr xs), f, .pending⟩,
                 cache := setA st.cache (jsonStringify (JValue.arr xs))
                   ⟨st.nextId, st.nextId⟩ },
       .ok st.nextId) := by
    simp [get, keyToString, h]
  have hlook : lookupA
      (get (Key.str (jsonStringify (JValue.arr xs))) f .ret st).1.cache
      (keyToString (Key.seq xs)) = some ⟨st.nextId, st.nextId⟩ := by
    rw [hres]
    exact lookupA_setA_self _ _ _
  exact ⟨htok, by rw [hres], get_hit hlook g .ret⟩

/-- Witness for C10 at a concrete input: the string key `"[\"a\"]"` and the
sequence key `["a"]` share one token, and after `get` with the string key,
`get` with the sequence key returns the cached promise `0`. -/
theorem token_collision_witness :
    keyToString (Key.str "[\"a\"]") = keyToString (Key.seq [JValue.str "a"]) ∧
    (get (Key.seq [JValue.str "a"]) 2 .ret
      (get (Key.str "[\"a\"]") 1 .ret init).1).2 = .ok 0 := by
  have hs : jsonStringify (JValue.arr [JValue.str "a"]) = "[\"a\"]" := by decide
  have h := token_collision init [JValue.str "a"] 1 2 rfl
  rw [hs] at h
  refine ⟨h.1, ?_⟩
  rw [h.2.2]
  rfl

/-! ### The strategy-bearing store

The retention-strategy features (TTL pre-check, per-hit access
bookkeeping) are exercised by the repository's test suite and by the
React-hook `AsyncStore` interface declaration, but their implementation is
not among the sources under `src/`; the definitions below are therefore
modelled from the spec, as their doc comments state. -/

/-- Modelled from the spec: the Entry metadata of the strategy-bearing
store, which is missing from `src/` (only its tests and the hooks'
`AsyncStore` interface refer to it).  Per §3 an Entry carries an immutable
`createdAt` timestamp, a `lastAccessedAt` timestamp updated on every hit,
and an `accessSequence` counter updated on every hit and used to
total-order entries for LRU eviction. -/
structure SEntry : Type where
  promise : Nat
  controller : Nat
  createdAt : Nat
  lastAccessedAt : Nat
  accessSequence : Nat
deriving DecidableEq, Repr

/-- Modelled from the spec: the four retention strategies of §4.4
(reference-counting, LRU, TTL, manual), a configuration-time choice. -/
inductive Strategy : Type where
  | refCounting (cleanupInterval gracePeriod : Nat)
  | lru (maxSize : Nat)
  | ttl (t : Nat)
  | manual
deriving DecidableEq, Repr

/-- Modelled from the spec: state of the strategy-bearing store — the
active strategy, the entry table, the store-wide `accessSequence` counter
(strictly increasing, never reset per §3), the fresh-id supply, the aborted
controllers and the fetcher-invocation log. -/
structure SSt : Type where
  strat : Strategy
  cache : List (String × SEntry)
  counter : Nat
  nextId : Nat
  aborted : List Nat
  invocations : List Nat
deriving DecidableEq, Repr

/-- Modelled from the spec: the entry with the smallest `accessSequence`
(the LRU eviction victim of §4.4; ties are impossible by strict
monotonicity). -/
def findLRU : List (String × SEntry) → Option (String × SEntry)
  | [] => none
  | e :: rest =>
    match findLRU rest with
    | none => some e
    | some m => if e.2.accessSequence < m.2.accessSequence then some e else some m

/-- Modelled from the spec: the LRU admission rule of §4.4 — before
admitting a new entry, if the table size has reached `maxSize`, cancel and
evict the entry with the smallest `accessSequence`.  Other strategies admit
unconditionally. -/
def evictIfNeeded (st : SSt) : SSt :=
  match st.strat with
  | .lru maxSize =>
    if maxSize ≤ st.cache.length then
      match findLRU st.cache with
      | some (k, e) =>
        { st with aborted := e.controller :: st.aborted,
                  cache := eraseA st.cache k }
      | none => st
    else st
  | _ => st

/-- Modelled from the spec: the TTL pre-check of §4.4 — on lookup, under
the TTL strategy, an entry older than `ttl` (by `createdAt`) is treated as
absent: it is cancelled and evicted before the table is consulted.  This
check is part of the synchronous lookup itself, independent of any interval
sweep.  Under every other strategy the lookup state is untouched. -/
def ttlCheck (now : Nat) (ks : String) (st : SSt) : SSt :=
  match st.strat, lookupA st.cache ks with
  | .ttl t, some e =>
    if now - e.createdAt > t then
      { st with aborted := e.controller :: st.aborted,
                cache := eraseA st.cache ks }
    else st
  | _, _ => st

/-- Modelled from the spec: `get` of the strategy-bearing store (§4.3) —
after the strategy-specific pre-check, a hit returns the cached entry's
promise, updating `lastAccessedAt` and assigning the next `accessSequence`
value; a miss applies the admission rule, invokes the fetcher with a fresh
cancellation handle, and registers the new entry. -/
def sget (now : Nat) (k : Key) (f : Nat) (st : SSt) : SSt × Nat :=
  let ks := keyToString k
  let checked := ttlCheck now ks st
  match lookupA checked.cache ks with
  | some e =>
    ({ checked with
        cache := setA checked.cache ks
          { e with lastAccessedAt := now, accessSequence := checked.counter + 1 },
        counter := checked.counter + 1 }, e.promise)
  | none =>
    let st2 := evictIfNeeded checked
    ({ st2 with
        nextId := st2.nextId + 1,
        counter := st2.counter + 1,
        invocations := st2.invocations ++ [f],
        cache := setA st2.cache ks
          ⟨st2.nextId, st2.nextId, now, now, st2.counter + 1⟩ }, st2.nextId)

theorem ttlCheck_fresh {st : SSt} {ks : String} {e : SEntry} {T now : Nat}
    (hstrat : st.strat = .ttl T) (he : lookupA st.cache ks = some e)
    (hle : now - e.createdAt ≤ T) : ttlCheck now ks st = st := by
  simp only [ttlCheck, hstrat, he]
  rw [if_neg (by omega)]

/-- Claim C6 (TTL expiry at access time): under the TTL strategy with
`ttl = T`, a `sget` strictly later than `createdAt + T` treats the entry as
absent — it aborts and evicts it, re-invokes the computation function, and
installs a fresh entry — while a `sget` strictly before `createdAt + T`
returns the cached promise with no invocation.  The check is part of the
synchronous lookup (`ttlCheck` inside `sget`), so it applies before any
interval sweep could fire. -/
theorem ttl_expiry (st : SSt) (k : Key) (f : Nat) (e : SEntry) (T now : Nat)
    (hstrat : st.strat = .ttl T)
    (he : lookupA st.cache (keyToString k) = some e) :
    (e.createdAt + T < now →
       (sget now k f st).2 = st.nextId ∧
       (sget now k f st).1.invocations = st.invocations ++ [f] ∧
       (sget now k f st).1.aborted = e.controller :: st.aborted ∧
       lookupA (sget now k f st).1.cache (keyToString k) =
         some ⟨st.nextId, st.nextId, now, now, st.counter + 1⟩) ∧
    (now < e.createdAt + T →
       (sget now k f st).2 = e.promise ∧
       (sget now k f st).1.invocations = st.invocations) := by
  constructor
  · intro hlate
    have hchecked : ttlCheck now (keyToString k) st =
        { st with aborted := e.controller :: st.aborted,
                  cache := eraseA st.cache (keyToString k) } := by
      simp only [ttlCheck, hstrat, he]
      rw [if_pos (by omega)]
    have hevict : evictIfNeeded
        { st with aborted := e.controller :: st.aborted,
                  cache := eraseA st.cache (keyToString k) } =
        { st with aborted := e.controller :: st.aborted,
                  cache := eraseA st.cache (keyToString k) } := by
      simp [evictIfNeeded, hstrat]
    refine ⟨?_, ?_, ?_, ?_⟩ <;>
      simp [sget, hchecked, lookupA_eraseA_self, hevict, lookupA_setA_self]
  · intro hearly
    have hchecked : ttlCheck now (keyToString k) st = st :=
      ttlCheck_fresh hstrat he (by omega)
    refine ⟨?_, ?_⟩ <;> simp [sget, hchecked, he]

/-- Concrete TTL store for the C6 witness: `ttl = 100`, one entry for `"k"`
created at time `50` (promise and controller `0`), next id `1`. -/
def c6Store : SSt :=
  ⟨.ttl 100, [("k", ⟨0, 0, 50, 50, 1⟩)], 1, 1, [], [5]⟩

/-- Witness for C6 at concrete inputs: in `c6Store`, a `sget` at time `151`
(strictly after `50 + 100`) re-invokes fetcher `9` and returns the fresh
promise `1`, while a `sget` at time `149` (strictly before) returns the
cached promise `0` with no invocation. -/
theorem ttl_expiry_witness :
    (sget 151 (Key.str "k") 9 c6Store).2 = 1 ∧
    (sget 151 (Key.str "k") 9 c6Store).1.invocations = [5, 9] ∧
    (sget 149 (Key.str "k") 9 c6Store).2 = 0 ∧
    (sget 149 (Key.str "k") 9 c6Store).1.invocations = [5] := by
  have h := ttl_expiry c6Store (Key.str "k") 9 ⟨0, 0, 50, 50, 1⟩ 100 151 rfl rfl
  have h' := ttl_expiry c6Store (Key.str "k") 9 ⟨0, 0, 50, 50, 1⟩ 100 149 rfl rfl
  exact ⟨(h.1 (by decide)).1, (h.1 (by decide)).2.1,
    (h'.2 (by decide)).1, (h'.2 (by decide)).2⟩

/-- Claim C9 (hit bookkeeping): a `sget` that hits an existing entry (no
TTL expiry applies) returns the cached promise and rewrites the entry with
`lastAccessedAt = now` and the freshly assigned `accessSequence`, which is
the incremented store-wide counter; the assigned value is strictly greater
than every `accessSequence` previously assigned (all of which are bounded
by the old counter), and the bound is preserved, so assigned values
strictly increase across the whole store and are never reset. -/
theorem hit_bookkeeping (st : SSt) (k : Key) (f : Nat) (e : SEntry) (now : Nat)
    (he : lookupA st.cache (keyToString k) = some e)
    (hfresh : ∀ T, st.strat = .ttl T → now - e.createdAt ≤ T) :
    (sget now k f st).2 = e.promise ∧
    (sget now k f st).1.counter = st.counter + 1 ∧
    lookupA (sget now k f st).1.cache (keyToString k) =
      some { e with lastAccessedAt := now, accessSequence := st.counter + 1 } ∧
    ((∀ p ∈ st.cache, p.2.accessSequence ≤ st.counter) →
       (∀ p ∈ st.cache, p.2.accessSequence < st.counter + 1) ∧
       (∀ p ∈ (sget now k f st).1.cache,
          p.2.accessSequence ≤ (sget now k f st).1.counter)) := by
  have hchecked : ttlCheck now (keyToString k) st = st := by
    cases hs : st.strat with
    | ttl T => exact ttlCheck_fresh hs he (hfresh T hs)
    | refCounting ci gp => simp [ttlCheck, hs]
    | lru ms => simp [ttlCheck, hs]
    | manual => simp [ttlCheck, hs]
  have hres : sget now k f st =
      ({ st with
          cache := setA st.cache (keyToString k)
            { e with lastAccessedAt := now, accessSequence := st.counter + 1 },
          counter := st.counter + 1 }, e.promise) := by
    simp [sget, hchecked, he]
  refine ⟨by rw [hres], by rw [hres], ?_, fun hinv => ⟨?_, ?_⟩⟩
  · rw [hres]
    exact lookupA_setA_self _ _ _
  · intro p hp
    have := hinv p hp
    omega
  · intro p hp
    rw [hres] at hp ⊢
    simp only [setA, List.mem_cons] at hp
    rcases hp with hp | hp
    · rw [hp]
    · have := hinv p (mem_eraseA hp)
      show p.2.accessSequence ≤ st.counter + 1
      omega

/-- Concrete manual-strategy store for the C9 witness: entries for `"k"`
and `"j"` with access sequences `1` and `2`, store counter `2`. -/
def c9Store : SSt :=
  ⟨.manual, [("k", ⟨0, 0, 10, 10, 1⟩), ("j", ⟨2, 2, 5, 5, 2⟩)], 2, 3, [], [4, 6]⟩

/-- Witness for C9 at concrete inputs: in `c9Store`, a hit on `"k"` at time
`20` returns promise `0`, bumps the counter to `3`, rewrites the entry with
`lastAccessedAt = 20` and `accessSequence = 3`, and `3` is strictly greater
than every previously assigned access sequence. -/
theorem hit_bookkeeping_witness :
    (sget 20 (Key.str "k") 9 c9Store).2 = 0 ∧
    (sget 20 (Key.str "k") 9 c9Store).1.counter = 3 ∧
    lookupA (sget 20 (Key.str "k") 9 c9Store).1.cache "k" =
      some ⟨0, 0, 10, 20, 3⟩ ∧
    (∀ p ∈ c9Store.cache, p.2.accessSequence < 3) := by
  have h := hit_bookkeeping c9Store (Key.str "k") 9 ⟨0, 0, 10, 10, 1⟩ 20 rfl
    (by intro T hT; simp [c9Store] at hT)
  exact ⟨h.1, h.2.1, h.2.2.1, (h.2.2.2 (by decide)).1⟩

end AsyncStore
